import Mathlib

/-!
Shallow embedding of `log_merger.py`, the merge engine of the bWell log-file
merger.  Parsed JSON documents are modelled by `JValue` (JSON numbers are
modelled as integers; the repository's records carry integer timestamps and
no claim depends on float behaviour).  Python dictionaries are modelled as
association lists with unique keys in insertion order, `dict.get` by
`jLookup`, and item assignment by `setKey`.  Fallible Python code is
modelled with `Except MergeError`.  The CLI, file loading and file writing
(`load_json_file`, `main`) are external collaborators per the specification
and are not part of the engine model.
-/

/-- A parsed JSON value (Python object produced by `json.load`). -/
inductive JValue where
  | null
  | bool (b : Bool)
  | num (n : Int)
  | str (s : String)
  | arr (elems : List JValue)
  | obj (fields : List (String × JValue))

/-- A parsed JSON object: a Python `dict` as an insertion-ordered
association list with unique keys. -/
abbrev JObj := List (String × JValue)

/-- Python `d.get(k)` / `d[k]`: the value stored at key `k`, if any. -/
def jLookup (k : String) : JObj → Option JValue
  | [] => none
  | (k2, v) :: rest => if k2 == k then some v else jLookup k rest

/-- Python `d[k] = v`: replace the value at an existing key in place
(keeping its position), else append the new key at the end. -/
def setKey : JObj → String → JValue → JObj
  | [], k, v => [(k, v)]
  | (k2, w) :: rest, k, v =>
      if k2 == k then (k, v) :: rest else (k2, w) :: setKey rest k v

/-- Python's coercion of `bool` to `int` for comparisons (`True == 1`). -/
def boolInt (b : Bool) : Int := if b then 1 else 0

mutual

/-- Python `==` on JSON values: total, never raises.  Numbers and booleans
compare by value (`True == 1`), lists elementwise, dicts by key lookup
(order-insensitive), and values of unrelated types are unequal. -/
def pyEq : JValue → JValue → Bool
  | .null, .null => true
  | .bool a, .bool b => a == b
  | .bool a, .num b => boolInt a == b
  | .num a, .bool b => a == boolInt b
  | .num a, .num b => a == b
  | .str a, .str b => a == b
  | .arr a, .arr b => pyEqList a b
  | .obj a, .obj b => a.length == b.length && pyEqFields a b
  | _, _ => false
termination_by a b => sizeOf a + sizeOf b
decreasing_by all_goals (simp_wf; try omega)

/-- Python `==` on lists: pointwise, same length. -/
def pyEqList : List JValue → List JValue → Bool
  | [], [] => true
  | x :: xs, y :: ys => pyEq x y && pyEqList xs ys
  | _, _ => false
termination_by a b => sizeOf a + sizeOf b
decreasing_by all_goals (simp_wf; try omega)

/-- Every field of the first dict is present in the second with `==` value. -/
def pyEqFields : List (String × JValue) → List (String × JValue) → Bool
  | [], _ => true
  | (k, v) :: rest, b => pyEqField k v b && pyEqFields rest b
termination_by a b => sizeOf a + sizeOf b
decreasing_by all_goals (simp_wf; try omega)

/-- Whether key `k` maps to a value `==`-equal to `v` in the field list. -/
def pyEqField (k : String) (v : JValue) : List (String × JValue) → Bool
  | [] => false
  | (k2, w) :: rest => if k2 == k then pyEq v w else pyEqField k v rest
termination_by l => sizeOf v + sizeOf l
decreasing_by all_goals (simp_wf; try omega)

end

mutual

/-- Python `a < b` on JSON values: `some r` when the comparison succeeds
with result `r`, `none` when it raises `TypeError` (incomparable types,
e.g. `None`, dicts, or mixed `str`/`int`). -/
def pyLtV : JValue → JValue → Option Bool
  | .bool a, .bool b => some (decide (boolInt a < boolInt b))
  | .bool a, .num b => some (decide (boolInt a < b))
  | .num a, .bool b => some (decide (a < boolInt b))
  | .num a, .num b => some (decide (a < b))
  | .str a, .str b => some (decide (a < b))
  | .arr a, .arr b => pyLtList a b
  | _, _ => none
termination_by a b => sizeOf a + sizeOf b
decreasing_by all_goals (simp_wf; try omega)

/-- Python `<` on lists: skip `==`-equal prefixes, then compare the first
mismatching elements, else compare lengths. -/
def pyLtList : List JValue → List JValue → Option Bool
  | [], [] => some false
  | [], _ :: _ => some true
  | _ :: _, [] => some false
  | x :: xs, y :: ys => if pyEq x y then pyLtList xs ys else pyLtV x y
termination_by a b => sizeOf a + sizeOf b
decreasing_by all_goals (simp_wf; try omega)

end

/-- Python `a < b` on JSON values (non-recursive wrapper over `pyLtV`'s
cases, so that scalar comparisons reduce definitionally). -/
def pyLt : JValue → JValue → Option Bool
  | .bool a, .bool b => some (decide (boolInt a < boolInt b))
  | .bool a, .num b => some (decide (boolInt a < b))
  | .num a, .bool b => some (decide (a < boolInt b))
  | .num a, .num b => some (decide (a < b))
  | .str a, .str b => some (decide (a < b))
  | .arr a, .arr b => pyLtList a b
  | _, _ => none

/-- Errors the merge engine can raise.  The first three are the
`ValueError`s of the specification's taxonomy; `attributeError` and
`typeError` model uncaught Python exceptions outside the taxonomy. -/
inductive MergeError where
  | insufficientInputs
  | missingDataField (identifier : String)
  | invalidDataType (identifier : String)
  | attributeError (detail : String)
  | typeError (detail : String)

/-- The message of each raised error, as formatted by the source. -/
def errorMessage : MergeError → String
  | .insufficientInputs => "At least 2 files are required for merging"
  | .missingDataField f => "File " ++ f ++ " is missing required \x27data\x27 field"
  | .invalidDataType f => "File " ++ f ++ " \x27data\x27 field must be a list"
  | .attributeError d => d
  | .typeError d => d

/-- Whether an error belongs to the specification's error taxonomy
(`InsufficientInputs` / `MissingDataField` / `InvalidDataType`; the load
and write errors are raised by the external collaborators, not the core). -/
def inTaxonomy : MergeError → Bool
  | .insufficientInputs => true
  | .missingDataField _ => true
  | .invalidDataType _ => true
  | .attributeError _ => false
  | .typeError _ => false

/-- `is_merged_file` (line 26): a document is a prior merge result iff the
`merged_sources` key is present, whatever its value. -/
def is_merged_file (log_data : JObj) : Bool :=
  (jLookup "merged_sources" log_data).isSome

/-- The `data` list of a document (meaningful once validated). -/
def dataOf (d : JObj) : List JValue :=
  match jLookup "data" d with
  | some (.arr l) => l
  | _ => []

/-- Whether the document's `data` field is present and a list. -/
def dataIsList (d : JObj) : Bool :=
  match jLookup "data" d with
  | some (.arr _) => true
  | _ => false

/-- The validation loop of `merge_log_files` (lines 77-81): scan the
documents in order; the first one missing `data` raises
`MissingDataField`, the first one whose `data` is not a list raises
`InvalidDataType`. -/
def validate : List (String × JObj) → Except MergeError Unit
  | [] => .ok ()
  | (filepath, log_data) :: rest =>
    match jLookup "data" log_data with
    | none => .error (.missingDataField filepath)
    | some (.arr _) => validate rest
    | some _ => .error (.invalidDataType filepath)

/-- `get_timestamp` (lines 94-95): `record.get("timestamp", 0)`.  On a
non-dict record, attribute lookup of `get` raises `AttributeError`, which
the surrounding `except (TypeError, KeyError)` does not catch. -/
def get_timestamp : JValue → Except MergeError JValue
  | .obj fields => .ok ((jLookup "timestamp" fields).getD (.num 0))
  | _ => .error (.attributeError "record object has no attribute get")

/-- The effective sort key of a record (total companion of
`get_timestamp`, meaningful for dict records). -/
def effTs : JValue → JValue
  | .obj fields => (jLookup "timestamp" fields).getD (.num 0)
  | _ => .num 0

/-- All ordered pairs of keys compare without `TypeError`. -/
def totallyComparable (keys : List JValue) : Bool :=
  keys.all fun a => keys.all fun b => (pyLt a b).isSome

/-- The sort's element order on (record, key) pairs: `p` may precede `q`
iff `q`'s key is not strictly below `p`'s (ties keep insertion order,
matching the stability of Python's sort). -/
def pairLe (p q : JValue × JValue) : Bool :=
  !((pyLt q.2 p.2).getD false)

/-- Stable insertion into an already sorted list: the new element goes
before the first element it may precede. -/
def orderedInsertBy (le : α → α → Bool) (a : α) : List α → List α
  | [] => [a]
  | b :: l => if le a b then a :: b :: l else b :: orderedInsertBy le a l

/-- Stable insertion sort: each element is inserted into the sorted list
of the elements after it, so it precedes later elements with equal keys. -/
def insertionSortBy (le : α → α → Bool) : List α → List α
  | [] => []
  | a :: l => orderedInsertBy le a (insertionSortBy le l)

/-- The key-computation pass of `list.sort(key=get_timestamp)` (line 98):
CPython calls the key function once per element, in order, before any
comparison; the first failure (here only `AttributeError`, from a
non-dict record) aborts the sort with the list untouched. -/
def extractKeys : List JValue → Except MergeError (List JValue)
  | [] => .ok []
  | r :: rest =>
    match get_timestamp r with
    | .error e => .error e
    | .ok k =>
      match extractKeys rest with
      | .error e => .error e
      | .ok ks => .ok (k :: ks)

/-- Lines 93-100: `all_data_records.sort(key=get_timestamp)` inside
`try/except (TypeError, KeyError)`.  An `AttributeError` from the key
pass propagates; when all key pairs are comparable the records are stably
sorted by key; a `TypeError` from an incomparable key pair is caught and
the combined list is kept — this model keeps it in concatenation order,
which is exact whenever no comparison succeeds (CPython's sort then
raises on its very first comparison, before moving any element). -/
def sortRecords (records : List JValue) : Except MergeError (List JValue) :=
  match extractKeys records with
  | .error e => .error e
  | .ok keys =>
    if totallyComparable keys then
      .ok ((insertionSortBy pairLe (records.zip keys)).map Prod.fst)
    else
      .ok records

/-- The entry appended to `previous_merges` (lines 49-52), built from the
base document's existing lineage: its `merged_at` (default `None`) and
`[base_file] + additional_files` (defaults `None` and `[]`). -/
def prevMergeEntry (sources : JObj) : JValue :=
  .obj [("merged_at", (jLookup "merged_at" sources).getD .null),
        ("files_in_merge",
          .arr ((jLookup "base_file" sources).getD .null ::
            (match jLookup "additional_files" sources with
             | some (.arr l) => l
             | _ => [])))]

/-- `existing_sources.get("additional_files", [])` as used by the `+`
concatenation on line 44: `some` of the list (default `[]`), `none` when
the stored value is not a list (Python `list + non-list` raises
`TypeError`). -/
def inheritedAdditional (sources : JObj) : Option (List JValue) :=
  match jLookup "additional_files" sources with
  | none => some []
  | some (.arr l) => some l
  | some _ => none

/-- `create_merged_metadata` (lines 31-54).  Builds the `merged_sources`
dict: `merged_at`, `base_file`, `additional_files`,
`total_files_merged`, and — when the base is itself a merge result —
inherits `base_file`/`additional_files` from its lineage and appends a
`previous_merges` entry.  A non-dict `merged_sources` value raises
`AttributeError` (`.get` on a non-dict); a non-list `additional_files`
value raises `TypeError` (line 44); a non-list `previous_merges` value
raises `AttributeError` (`.append`, line 49). -/
def create_merged_metadata (base_file : String) (additional_files : List String)
    (base_data : JObj) (now : String) : Except MergeError JObj :=
  let merged_info : JObj := [
    ("merged_at", .str now),
    ("base_file", .str base_file),
    ("additional_files", .arr (additional_files.map JValue.str)),
    ("total_files_merged", .num ((additional_files.length : Int) + 1))]
  if is_merged_file base_data then
    match (jLookup "merged_sources" base_data).getD (.obj []) with
    | .obj sources =>
      let info1 := setKey merged_info "base_file"
        ((jLookup "base_file" sources).getD (.str base_file))
      match inheritedAdditional sources with
      | none => .error (.typeError "can only concatenate list to list")
      | some inherited =>
        let newAdditional := inherited ++ additional_files.map JValue.str
        let info2 := setKey info1 "additional_files" (.arr newAdditional)
        let info3 := setKey info2 "total_files_merged"
          (.num ((newAdditional.length : Int) + 1))
        match (jLookup "previous_merges" sources).getD (.arr []) with
        | .arr prevs =>
          .ok (setKey info3 "previous_merges"
            (.arr (prevs ++ [prevMergeEntry sources])))
        | _ => .error (.attributeError "previous_merges object has no attribute append")
    | _ => .error (.attributeError "merged_sources object has no attribute get")
  else
    .ok merged_info

/-- The value of the base document after `create_merged_metadata` has run,
under Python's reference semantics: on line 48 `merged_info["previous_merges"]`
is the very list object stored in the base document's own lineage whenever
that key is present (only the `.get` default `[]` would be a fresh list),
so the `.append` on line 49 also mutates the base input document.  In
every other case (no lineage, non-dict lineage, `previous_merges` absent
or not a list, or the `TypeError` of line 44 aborting before the append)
the base document is unchanged. -/
def basePostMerge (base_data : JObj) : JObj :=
  if is_merged_file base_data then
    match (jLookup "merged_sources" base_data).getD (.obj []) with
    | .obj sources =>
      match inheritedAdditional sources with
      | none => base_data
      | some _ =>
        match jLookup "previous_merges" sources with
        | some (.arr prevs) =>
          setKey base_data "merged_sources"
            (.obj (setKey sources "previous_merges"
              (.arr (prevs ++ [prevMergeEntry sources]))))
        | _ => base_data
    | _ => base_data
  else
    base_data

/-- The combined record list (lines 85-91): the base document's `data`
followed by each additional document's `data` in input order. -/
def combinedRecords : List (String × JObj) → List JValue
  | [] => []
  | (_, base_data) :: rest =>
    dataOf base_data ++ (rest.map fun d => dataOf d.2).flatten

/-- `merge_log_files` (lines 57-107), taking already-parsed documents with
their identifiers (loading is the external Document Loader) and the
current timestamp `now` (Python reads `datetime.now()`).  Validates,
concatenates and sorts the records, computes the lineage, and returns a
shallow copy of the base with `data` and `merged_sources` replaced. -/
def merge_log_files (now : String) : List (String × JObj) → Except MergeError JObj
  | [] => .error .insufficientInputs
  | [_] => .error .insufficientInputs
  | (base_filepath, base_data) :: rest =>
    match validate ((base_filepath, base_data) :: rest) with
    | .error e => .error e
    | .ok _ =>
      match sortRecords (combinedRecords ((base_filepath, base_data) :: rest)) with
      | .error e => .error e
      | .ok sorted =>
        match create_merged_metadata base_filepath (rest.map Prod.fst) base_data now with
        | .error e => .error e
        | .ok merged_sources =>
          .ok (setKey (setKey base_data "data" (.arr sorted))
                "merged_sources" (.obj merged_sources))

/-- The `data` value of a successful merge result, if any. -/
def mergedData : Except MergeError JObj → Option JValue
  | .ok r => jLookup "data" r
  | .error _ => none

/-- A field of the `merged_sources` lineage of a document. -/
def msField (r : JObj) (k : String) : Option JValue :=
  match jLookup "merged_sources" r with
  | some (.obj ms) => jLookup k ms
  | _ => none

/-- A field of the `merged_sources` lineage of a successful merge result. -/
def msLookup : Except MergeError JObj → String → Option JValue
  | .ok r, k => msField r k
  | .error _, _ => none

/-- Remove a key from an object. -/
def removeKey (o : JObj) (k : String) : JObj :=
  o.filter fun p => !(p.1 == k)

/-- Normalize a merge result by erasing the current run's `merged_at`
timestamp inside `merged_sources` (the only clock-dependent field). -/
def scrubMergedAt (r : JObj) : JObj :=
  match jLookup "merged_sources" r with
  | some (.obj ms) => setKey r "merged_sources" (.obj (removeKey ms "merged_at"))
  | _ => r

/-- Whether a record is a JSON object (Python dict). -/
def isObjB : JValue → Bool
  | .obj _ => true
  | _ => false

/-- The effective integer timestamp of a record whose `timestamp` field is
numeric or absent. -/
def effInt (v : JValue) : Int :=
  match effTs v with
  | .num n => n
  | _ => 0

/-- The number of `previous_merges` entries a document's lineage carries
(an observer used to compare documents before and after a merge). -/
def prevCount (d : JObj) : Nat :=
  match jLookup "merged_sources" d with
  | some (.obj ms) =>
    match jLookup "previous_merges" ms with
    | some (.arr l) => l.length
    | _ => 0
  | _ => 0

/-- Whether an error is a `MissingDataField`. -/
def isMissingDataField : MergeError → Bool
  | .missingDataField _ => true
  | _ => false

/-- Whether a value is a JSON array (Python list). -/
def isArrB : JValue → Bool
  | .arr _ => true
  | _ => false

/-! Basic lemmas about the object operations. -/

theorem jLookup_setKey_self (o : JObj) (k : String) (v : JValue) :
    jLookup k (setKey o k v) = some v := by
  induction o with
  | nil => simp [setKey, jLookup]
  | cons p rest ih =>
    obtain ⟨k2, w⟩ := p
    by_cases h : k2 == k
    · simp [setKey, h, jLookup]
    · simp [setKey, h, jLookup, ih]

theorem jLookup_setKey_ne (o : JObj) (k k' : String) (v : JValue) (h : (k' == k) = false) :
    jLookup k (setKey o k' v) = jLookup k o := by
  induction o with
  | nil => simp [setKey, jLookup, h]
  | cons p rest ih =>
    obtain ⟨k2, w⟩ := p
    by_cases h2 : k2 == k'
    · have hk2 : k2 = k' := eq_of_beq h2
      have : (k2 == k) = false := by rw [hk2]; exact h
      simp [setKey, h2, jLookup, this, h]
    · simp [setKey, h2, jLookup, ih]

/-! Closed, computational claim theorems. -/

/-- C10: lineage inheritance is triggered by the mere presence of the
`merged_sources` key.  On a valid input set (both `data` fields present
and list-shaped) whose base stores a non-mapping under `merged_sources`,
the merge fails with an `AttributeError` — an error outside the
specification's taxonomy — instead of succeeding or raising a taxonomy
error. -/
theorem c10_presence_triggered_inheritance_nonmapping_crash :
    merge_log_files "t"
        [("m", [("data", JValue.arr []), ("merged_sources", JValue.str "junk")]),
         ("b", [("data", JValue.arr [])])]
      = .error (.attributeError "merged_sources object has no attribute get")
    ∧ inTaxonomy (.attributeError "merged_sources object has no attribute get") = false :=
  ⟨rfl, rfl⟩

/-- C8 (code bug witnessed): at a base document that already carries a
`previous_merges` list — exactly what a second merge in a chain produces —
the merge succeeds, yet the base input document itself ends up with the
new history entry appended (Python aliasing of the inherited list):
afterwards it carries 2 entries where it had 1. -/
theorem c8_base_previous_merges_mutated :
    (merge_log_files "t3"
        [("a", [("data", JValue.arr []),
                ("merged_sources", JValue.obj
                  [("merged_at", JValue.str "t1"), ("base_file", JValue.str "w"),
                   ("additional_files", JValue.arr [JValue.str "y"]),
                   ("total_files_merged", JValue.num 2),
                   ("previous_merges", JValue.arr
                     [JValue.obj [("merged_at", JValue.str "t0"),
                                  ("files_in_merge", JValue.arr [JValue.str "w"])]])])]),
         ("z", [("data", JValue.arr [])])]).toOption.isSome = true
    ∧ prevCount (basePostMerge
        [("data", JValue.arr []),
         ("merged_sources", JValue.obj
           [("merged_at", JValue.str "t1"), ("base_file", JValue.str "w"),
            ("additional_files", JValue.arr [JValue.str "y"]),
            ("total_files_merged", JValue.num 2),
            ("previous_merges", JValue.arr
              [JValue.obj [("merged_at", JValue.str "t0"),
                           ("files_in_merge", JValue.arr [JValue.str "w"])]])])]) = 2
    ∧ prevCount
        [("data", JValue.arr []),
         ("merged_sources", JValue.obj
           [("merged_at", JValue.str "t1"), ("base_file", JValue.str "w"),
            ("additional_files", JValue.arr [JValue.str "y"]),
            ("total_files_merged", JValue.num 2),
            ("previous_merges", JValue.arr
              [JValue.obj [("merged_at", JValue.str "t0"),
                           ("files_in_merge", JValue.arr [JValue.str "w"])]])])] = 1 :=
  ⟨rfl, rfl, rfl⟩

/-- C7 counterexample: merging two fresh documents yields a lineage in
which the `previous_merges` key is simply absent, not equal to the empty
sequence as the claim states. -/
theorem c7_counterexample_previous_merges_absent :
    msLookup (merge_log_files "t"
        [("a", [("data", JValue.arr [])]), ("b", [("data", JValue.arr [])])])
      "previous_merges" = none
    ∧ (none : Option JValue) ≠ some (JValue.arr []) :=
  ⟨rfl, by simp⟩

/-- C5 counterexample: on a valid input set (both `data` fields present
and list-shaped) containing a non-object record, the merge does not
succeed — `record.get` raises an uncaught `AttributeError` in the sort's
key extraction. -/
theorem c5_counterexample_nonobject_record_fails :
    merge_log_files "t"
        [("s", [("data", JValue.arr [JValue.str "hello"])]),
         ("b", [("data", JValue.arr [])])]
      = .error (.attributeError "record object has no attribute get")
    ∧ inTaxonomy (.attributeError "record object has no attribute get") = false :=
  ⟨rfl, rfl⟩

/-- C2 counterexample: the first document's `data` is a mapping (invalid
type) while the second document lacks `data` entirely; the merge raises
`InvalidDataType`, not `MissingDataField`, so "fails with
`MissingDataField` exactly when some supplied document lacks a `data`
key" is false — validation error precedence follows input order. -/
theorem c2_counterexample_error_precedence :
    merge_log_files "t" [("f1", [("data", JValue.obj [])]), ("f2", [])]
      = .error (.invalidDataType "f1")
    ∧ jLookup "data" ([] : JObj) = none
    ∧ isMissingDataField (.invalidDataType "f1") = false :=
  ⟨rfl, rfl, rfl⟩

/-- C1 counterexample: when the prior merge's own base document X is
itself already a merge result (its lineage rooted at "w"), merging that
prior result with Z inherits `base_file = "w"`, not X's identifier "x",
refuting the claim as universally stated. -/
theorem c1_counterexample_nonfresh_x :
    merge_log_files "t1"
        [("x", [("data", JValue.arr []),
                ("merged_sources", JValue.obj
                  [("merged_at", JValue.str "t0"), ("base_file", JValue.str "w"),
                   ("additional_files", JValue.arr []),
                   ("previous_merges", JValue.arr [])])]),
         ("y", [("data", JValue.arr [])])]
      = .ok [("data", JValue.arr []),
             ("merged_sources", JValue.obj
               [("merged_at", JValue.str "t1"), ("base_file", JValue.str "w"),
                ("additional_files", JValue.arr [JValue.str "y"]),
                ("total_files_merged", JValue.num 2),
                ("previous_merges", JValue.arr
                  [JValue.obj [("merged_at", JValue.str "t0"),
                               ("files_in_merge", JValue.arr [JValue.str "w"])]])])]
    ∧ msLookup (merge_log_files "t2"
        [("a", [("data", JValue.arr []),
                ("merged_sources", JValue.obj
                  [("merged_at", JValue.str "t1"), ("base_file", JValue.str "w"),
                   ("additional_files", JValue.arr [JValue.str "y"]),
                   ("total_files_merged", JValue.num 2),
                   ("previous_merges", JValue.arr
                     [JValue.obj [("merged_at", JValue.str "t0"),
                                  ("files_in_merge", JValue.arr [JValue.str "w"])]])])]),
         ("z", [("data", JValue.arr [])])]) "base_file" = some (JValue.str "w")
    ∧ some (JValue.str "w") ≠ some (JValue.str "x") :=
  ⟨rfl, rfl, by simp⟩

/-! Generic lemmas about the stable insertion sort. -/

theorem length_orderedInsertBy (le : α → α → Bool) (a : α) (l : List α) :
    (orderedInsertBy le a l).length = l.length + 1 := by
  induction l with
  | nil => rfl
  | cons b t ih =>
    by_cases h : le a b <;> simp [orderedInsertBy, h, ih]

theorem length_insertionSortBy (le : α → α → Bool) (l : List α) :
    (insertionSortBy le l).length = l.length := by
  induction l with
  | nil => rfl
  | cons a t ih => simp [insertionSortBy, length_orderedInsertBy, ih]

theorem mem_orderedInsertBy (le : α → α → Bool) (a x : α) (l : List α) :
    x ∈ orderedInsertBy le a l ↔ x = a ∨ x ∈ l := by
  induction l with
  | nil => simp [orderedInsertBy]
  | cons b t ih =>
    by_cases h : le a b
    · simp [orderedInsertBy, h]
    · simp [orderedInsertBy, h, ih]
      tauto

theorem mem_insertionSortBy (le : α → α → Bool) (x : α) (l : List α) :
    x ∈ insertionSortBy le l ↔ x ∈ l := by
  induction l with
  | nil => simp [insertionSortBy]
  | cons a t ih => simp [insertionSortBy, mem_orderedInsertBy, ih]

theorem pairwise_orderedInsertBy (le : α → α → Bool) (a : α) (l : List α)
    (hl : l.Pairwise fun x y => le x y = true)
    (htot : ∀ b ∈ l, le a b = false → le b a = true)
    (htrans : ∀ b ∈ l, ∀ c ∈ l, le a b = true → le b c = true → le a c = true) :
    (orderedInsertBy le a l).Pairwise fun x y => le x y = true := by
  induction l with
  | nil => simp [orderedInsertBy]
  | cons b t ih =>
    rw [List.pairwise_cons] at hl
    obtain ⟨hb, ht⟩ := hl
    by_cases h : le a b
    · rw [orderedInsertBy]
      simp only [h, if_pos]
      refine List.Pairwise.cons ?_ (List.Pairwise.cons hb ht)
      intro x hx
      rcases List.mem_cons.mp hx with hxb | hxt
      · exact hxb ▸ h
      · exact htrans b (by simp) x (by simp [hxt]) h (hb x hxt)
    · rw [orderedInsertBy]
      simp only [h, if_neg, Bool.not_eq_true]
      refine List.Pairwise.cons ?_ ?_
      · intro x hx
        rcases (mem_orderedInsertBy le a x t).mp hx with hxa | hxt
        · exact hxa ▸ htot b (by simp) (by simpa using h)
        · exact hb x hxt
      · exact ih ht (fun c hc hf => htot c (by simp [hc]) hf)
          (fun c hc d hd h1 h2 => htrans c (by simp [hc]) d (by simp [hd]) h1 h2)

theorem pairwise_insertionSortBy (le : α → α → Bool) (l : List α)
    (htot : ∀ a ∈ l, ∀ b ∈ l, le a b = false → le b a = true)
    (htrans : ∀ a ∈ l, ∀ b ∈ l, ∀ c ∈ l, le a b = true → le b c = true → le a c = true) :
    (insertionSortBy le l).Pairwise fun x y => le x y = true := by
  induction l with
  | nil => simp [insertionSortBy]
  | cons a t ih =>
    rw [insertionSortBy]
    refine pairwise_orderedInsertBy le a (insertionSortBy le t)
      (ih ?_ ?_) ?_ ?_
    · exact fun x hx y hy => htot x (by simp [hx]) y (by simp [hy])
    · exact fun x hx y hy z hz => htrans x (by simp [hx]) y (by simp [hy]) z (by simp [hz])
    · intro b hb
      have := (mem_insertionSortBy le b t).mp hb
      exact htot a (by simp) b (by simp [this])
    · intro b hb c hc
      have hb2 := (mem_insertionSortBy le b t).mp hb
      have hc2 := (mem_insertionSortBy le c t).mp hc
      exact htrans a (by simp) b (by simp [hb2]) c (by simp [hc2])

theorem filter_orderedInsertBy_pos (le : α → α → Bool) (p : α → Bool) (a : α) (l : List α)
    (ha : p a = true) (h : ∀ b ∈ l, le a b = false → p b = false) :
    (orderedInsertBy le a l).filter p = a :: l.filter p := by
  induction l with
  | nil => simp [orderedInsertBy, ha]
  | cons b t ih =>
    by_cases hab : le a b
    · simp [orderedInsertBy, hab, ha]
    · have hpb : p b = false := h b (by simp) (by simpa using hab)
      simp only [orderedInsertBy, hab, if_neg, Bool.not_eq_true]
      rw [List.filter_cons, List.filter_cons]
      simp only [hpb]
      exact ih fun c hc hf => h c (by simp [hc]) hf

theorem filter_orderedInsertBy_neg (le : α → α → Bool) (p : α → Bool) (a : α) (l : List α)
    (ha : p a = false) :
    (orderedInsertBy le a l).filter p = l.filter p := by
  induction l with
  | nil => simp [orderedInsertBy, ha]
  | cons b t ih =>
    by_cases hab : le a b
    · simp [orderedInsertBy, hab, ha]
    · simp only [orderedInsertBy, hab, if_neg, Bool.not_eq_true]
      rw [List.filter_cons, List.filter_cons, ih]

theorem filter_insertionSortBy (le : α → α → Bool) (p : α → Bool) (l : List α)
    (h : ∀ a ∈ l, ∀ b ∈ l, le a b = false → p a = true → p b = false) :
    (insertionSortBy le l).filter p = l.filter p := by
  induction l with
  | nil => rfl
  | cons a t ih =>
    rw [insertionSortBy]
    by_cases hp : p a
    · rw [filter_orderedInsertBy_pos le p a _ hp ?_]
      · rw [List.filter_cons]
        simp only [hp, if_pos]
        rw [ih fun x hx y hy => h x (by simp [hx]) y (by simp [hy])]
      · intro b hb hf
        have hb2 := (mem_insertionSortBy le b t).mp hb
        exact h a (by simp) b (by simp [hb2]) hf hp
    · rw [filter_orderedInsertBy_neg le p a _ (by simpa using hp)]
      rw [List.filter_cons]
      simp only [hp]
      exact ih fun x hx y hy => h x (by simp [hx]) y (by simp [hy])

/-! Lemmas about key extraction, sorting and the combined record list. -/

theorem isObjB_iff (v : JValue) : isObjB v = true ↔ ∃ f, v = JValue.obj f := by
  cases v <;> simp [isObjB]

theorem get_timestamp_obj (fields : List (String × JValue)) :
    get_timestamp (.obj fields) = .ok (effTs (.obj fields)) := rfl

theorem extractKeys_of_obj (l : List JValue) (h : ∀ v ∈ l, isObjB v = true) :
    extractKeys l = .ok (l.map effTs) := by
  induction l with
  | nil => rfl
  | cons a t ih =>
    obtain ⟨fields, rfl⟩ := (isObjB_iff a).mp (h a (by simp))
    rw [extractKeys, get_timestamp_obj, ih fun v hv => h v (by simp [hv])]
    rfl

theorem extractKeys_ok (l ks : List JValue) (h : extractKeys l = .ok ks) :
    (∀ v ∈ l, isObjB v = true) ∧ ks = l.map effTs := by
  induction l generalizing ks with
  | nil =>
    rw [extractKeys] at h
    cases h
    simp
  | cons a t ih =>
    rw [extractKeys] at h
    cases ha : get_timestamp a with
    | error e => rw [ha] at h; cases h
    | ok k =>
      rw [ha] at h
      cases ht : extractKeys t with
      | error e => rw [ht] at h; cases h
      | ok ks2 =>
        rw [ht] at h
        cases h
        obtain ⟨hobj, rfl⟩ := ih ks2 ht
        have haobj : isObjB a = true := by
          cases a with
          | obj fields => rfl
          | _ => rw [get_timestamp] at ha <;> cases ha
        obtain ⟨fields, rfl⟩ := (isObjB_iff a).mp haobj
        refine ⟨?_, ?_⟩
        · intro v hv
          rcases List.mem_cons.mp hv with rfl | hvt
          · exact haobj
          · exact hobj v hvt
        · rw [get_timestamp_obj] at ha
          cases ha
          rfl

theorem sortRecords_length (records sorted : List JValue)
    (h : sortRecords records = .ok sorted) : sorted.length = records.length := by
  rw [sortRecords] at h
  split at h
  · cases h
  next keys hk =>
    obtain ⟨-, rfl⟩ := extractKeys_ok records keys hk
    split at h
    · cases h
      rw [List.length_map, length_insertionSortBy, List.length_zip,
        List.length_map, Nat.min_self]
    · cases h
      rfl

theorem sortRecords_ok_all_obj (records sorted : List JValue)
    (h : sortRecords records = .ok sorted) : ∀ v ∈ records, isObjB v = true := by
  rw [sortRecords] at h
  split at h
  · cases h
  next keys hk => exact (extractKeys_ok records keys hk).1

theorem mem_combinedRecords (docs : List (String × JObj)) (fd : String × JObj)
    (v : JValue) (hfd : fd ∈ docs) (hv : v ∈ dataOf fd.2) :
    v ∈ combinedRecords docs := by
  match docs with
  | [] => cases hfd
  | (f, d) :: rest =>
    rw [combinedRecords]
    rcases List.mem_cons.mp hfd with rfl | hrest
    · exact List.mem_append_left _ hv
    · refine List.mem_append_right _ ?_
      rw [List.mem_flatten]
      exact ⟨dataOf fd.2, List.mem_map.mpr ⟨fd, hrest, rfl⟩, hv⟩

theorem combinedRecords_length (docs : List (String × JObj)) (h : docs ≠ []) :
    (combinedRecords docs).length = (docs.map fun d => (dataOf d.2).length).sum := by
  match docs with
  | [] => exact absurd rfl h
  | (f, d) :: rest =>
    rw [combinedRecords]
    simp only [List.length_append, List.length_flatten, List.map_map, List.map_cons,
      List.sum_cons]
    rfl

/-- Unfolding equation of `merge_log_files` on two or more documents. -/
theorem merge_log_files_eq (now f : String) (d : JObj) (p : String × JObj)
    (rest : List (String × JObj)) :
    merge_log_files now ((f, d) :: p :: rest) =
      match validate ((f, d) :: p :: rest) with
      | .error e => .error e
      | .ok _ =>
        match sortRecords (combinedRecords ((f, d) :: p :: rest)) with
        | .error e => .error e
        | .ok sorted =>
          match create_merged_metadata f ((p :: rest).map Prod.fst) d now with
          | .error e => .error e
          | .ok merged_sources =>
            .ok (setKey (setKey d "data" (.arr sorted))
                  "merged_sources" (.obj merged_sources)) := rfl

/-- C3: for every input set on which the merge succeeds, the result's
`data` is a list whose length equals the sum of the lengths of all
inputs' `data` lists. -/
theorem c3_merged_data_length_is_sum (now : String) (docs : List (String × JObj))
    (r : JObj) (h : merge_log_files now docs = .ok r) :
    ∃ l, jLookup "data" r = some (JValue.arr l) ∧
      l.length = (docs.map fun d => (dataOf d.2).length).sum := by
  match docs with
  | [] => simp [merge_log_files] at h
  | [d] => simp [merge_log_files] at h
  | (f, d) :: p :: rest =>
    rw [merge_log_files_eq] at h
    split at h
    · cases h
    · split at h
      · cases h
      next sorted hs =>
        split at h
        · cases h
        next ms hms =>
          cases h
          refine ⟨sorted, ?_, ?_⟩
          · rw [jLookup_setKey_ne _ _ _ _ (by decide), jLookup_setKey_self]
          · rw [sortRecords_length _ _ hs, combinedRecords_length _ (by simp)]

/-- C3 witness: a concrete successful merge of 1 + 2 records. -/
theorem c3_merged_data_length_is_sum_witness :
    ∃ l, jLookup "data"
        [("data", JValue.arr [JValue.obj [], JValue.obj [], JValue.obj []]),
         ("merged_sources", JValue.obj
           [("merged_at", JValue.str "t"), ("base_file", JValue.str "a"),
            ("additional_files", JValue.arr [JValue.str "b"]),
            ("total_files_merged", JValue.num 2)])]
      = some (JValue.arr l) ∧
      l.length = (([("a", [("data", JValue.arr [JValue.obj []])]),
                    ("b", [("data", JValue.arr [JValue.obj [], JValue.obj []])])]
                  : List (String × JObj)).map fun d => (dataOf d.2).length).sum :=
  c3_merged_data_length_is_sum "t"
    [("a", [("data", JValue.arr [JValue.obj []])]),
     ("b", [("data", JValue.arr [JValue.obj [], JValue.obj []])])]
    _ rfl

/-- C5 (amended): the merge accepts only object records — whenever it
succeeds, every record of every input's `data` list is an object; a
non-object record instead aborts the merge with an uncaught
`AttributeError` from the sort's key extraction. -/
theorem c5_success_requires_object_records (now : String)
    (docs : List (String × JObj)) (r : JObj) (h : merge_log_files now docs = .ok r) :
    ∀ fd ∈ docs, ∀ v ∈ dataOf fd.2, isObjB v = true := by
  match docs with
  | [] => intro fd hfd; cases hfd
  | [d] => simp [merge_log_files] at h
  | (f, d) :: p :: rest =>
    rw [merge_log_files_eq] at h
    split at h
    · cases h
    · split at h
      · cases h
      next sorted hs =>
        intro fd hfd v hv
        exact sortRecords_ok_all_obj _ _ hs v
          (mem_combinedRecords _ fd v hfd hv)

/-- C5 witness: the theorem applied to a concrete successful merge. -/
theorem c5_success_requires_object_records_witness :
    isObjB (JValue.obj []) = true :=
  c5_success_requires_object_records "t"
    [("a", [("data", JValue.arr [JValue.obj []])]),
     ("b", [("data", JValue.arr [])])] _ rfl
    ("a", [("data", JValue.arr [JValue.obj []])]) (by simp)
    (JValue.obj []) (by simp [dataOf, jLookup])

/-! C6: incomparable timestamps degrade to concatenation order. -/

theorem sortRecords_of_incomparable (records : List JValue)
    (hobj : ∀ v ∈ records, isObjB v = true)
    (hinc : records.Pairwise fun a b => pyLt (effTs a) (effTs b) = none) :
    sortRecords records = .ok records := by
  rw [sortRecords, extractKeys_of_obj records hobj]
  match records with
  | [] => rfl
  | [a] =>
    dsimp only
    by_cases hc : totallyComparable ([a].map effTs) = true
    · rw [if_pos hc]
      simp [insertionSortBy, orderedInsertBy]
    · rw [if_neg hc]
  | a :: b :: t =>
    have hab : pyLt (effTs a) (effTs b) = none :=
      (List.pairwise_cons.mp hinc).1 b (by simp)
    have hc : totallyComparable ((a :: b :: t).map effTs) = false := by
      rw [Bool.eq_false_iff]
      intro hall
      have h1 := List.all_eq_true.mp hall (effTs a) (by simp)
      have h2 := List.all_eq_true.mp h1 (effTs b) (by simp)
      rw [hab] at h2
      cases h2
    dsimp only
    rw [hc]
    simp

/-- C6: on a valid input set (validation passes, lineage construction
succeeds) all of whose records are objects with pairwise-incomparable
effective timestamps, the merge does not fail and the result's `data` is
exactly the combined record list in concatenation order. -/
theorem c6_incomparable_is_not_an_error (now f : String) (d : JObj)
    (p : String × JObj) (rest : List (String × JObj))
    (hval : validate ((f, d) :: p :: rest) = .ok ())
    (hms : ∃ ms, create_merged_metadata f ((p :: rest).map Prod.fst) d now = .ok ms)
    (hobj : ∀ v ∈ combinedRecords ((f, d) :: p :: rest), isObjB v = true)
    (hinc : (combinedRecords ((f, d) :: p :: rest)).Pairwise fun a b =>
        pyLt (effTs a) (effTs b) = none) :
    mergedData (merge_log_files now ((f, d) :: p :: rest)) =
      some (JValue.arr (combinedRecords ((f, d) :: p :: rest))) := by
  obtain ⟨ms, hcreate⟩ := hms
  rw [merge_log_files_eq, hval]
  dsimp only
  rw [sortRecords_of_incomparable _ hobj hinc]
  dsimp only
  rw [hcreate]
  dsimp only
  rw [mergedData]
  rw [jLookup_setKey_ne _ _ _ _ (by decide), jLookup_setKey_self]

/-- C6 witness: a string timestamp and an integer timestamp are mutually
incomparable; merging them succeeds with the records unsorted. -/
theorem c6_incomparable_is_not_an_error_witness :
    mergedData (merge_log_files "t"
        [("c", [("data", JValue.arr [JValue.obj [("timestamp", JValue.str "x")]])]),
         ("b", [("data", JValue.arr [JValue.obj [("timestamp", JValue.num 0)]])])]) =
      some (JValue.arr (combinedRecords
        [("c", [("data", JValue.arr [JValue.obj [("timestamp", JValue.str "x")]])]),
         ("b", [("data", JValue.arr [JValue.obj [("timestamp", JValue.num 0)]])])])) := by
  refine c6_incomparable_is_not_an_error "t" "c"
    [("data", JValue.arr [JValue.obj [("timestamp", JValue.str "x")]])]
    ("b", [("data", JValue.arr [JValue.obj [("timestamp", JValue.num 0)]])]) []
    rfl ⟨_, rfl⟩ ?_ ?_
  · intro v hv
    rw [show combinedRecords
        [("c", [("data", JValue.arr [JValue.obj [("timestamp", JValue.str "x")]])]),
         ("b", [("data", JValue.arr [JValue.obj [("timestamp", JValue.num 0)]])])] =
      [JValue.obj [("timestamp", JValue.str "x")],
       JValue.obj [("timestamp", JValue.num 0)]] from rfl] at hv
    rcases List.mem_cons.mp hv with rfl | hv2
    · rfl
    · rcases List.mem_cons.mp hv2 with rfl | hv3
      · rfl
      · cases hv3
  · rw [show combinedRecords
        [("c", [("data", JValue.arr [JValue.obj [("timestamp", JValue.str "x")]])]),
         ("b", [("data", JValue.arr [JValue.obj [("timestamp", JValue.num 0)]])])] =
      [JValue.obj [("timestamp", JValue.str "x")],
       JValue.obj [("timestamp", JValue.num 0)]] from rfl]
    refine List.Pairwise.cons ?_ (List.Pairwise.cons ?_ List.Pairwise.nil)
    · intro y hy
      rcases List.mem_cons.mp hy with rfl | hy2
      · rfl
      · cases hy2
    · intro y hy
      cases hy

/-! C4: numeric timestamps give a sorted, stable result. -/

theorem effInt_of_effTs_num (v : JValue) (n : Int) (h : effTs v = .num n) :
    effInt v = n := by
  rw [effInt, h]

theorem pairLe_num (p q : JValue × JValue) (np nq : Int)
    (hp : p.2 = .num np) (hq : q.2 = .num nq) :
    pairLe p q = decide (np ≤ nq) := by
  rw [pairLe, hq, hp]
  rw [show pyLt (.num nq) (.num np) = some (decide (nq < np)) from rfl]
  rw [Option.getD_some]
  by_cases h : nq < np
  · simp [h, Int.not_le.mpr h]
  · simp [h, Int.not_lt.mp h]

/-- C4: when every record of the inputs is an object whose effective
timestamp is numeric (a `timestamp` field holding a number, or absent and
counting as 0), a successful merge's `data` is sorted non-decreasingly by
effective timestamp, and stably so: for each timestamp value, the records
carrying it appear exactly as in the concatenation (base's records in
order, then each additional document's records in input order). -/
theorem c4_numeric_timestamps_sorted_stable (now : String)
    (docs : List (String × JObj)) (r : JObj)
    (h : merge_log_files now docs = .ok r)
    (hnum : ∀ v ∈ combinedRecords docs,
      isObjB v = true ∧ ∃ n : Int, effTs v = JValue.num n) :
    ∃ l, jLookup "data" r = some (JValue.arr l) ∧
      l.Pairwise (fun a b => effInt a ≤ effInt b) ∧
      ∀ t : Int, l.filter (fun v => effInt v == t) =
        (combinedRecords docs).filter fun v => effInt v == t := by
  match docs with
  | [] => simp [merge_log_files] at h
  | [d] => simp [merge_log_files] at h
  | (f, d) :: p :: rest =>
    rw [merge_log_files_eq] at h
    split at h
    · cases h
    · split at h
      · cases h
      next sorted hs =>
        split at h
        · cases h
        next ms hms =>
          cases h
          have hdata : jLookup "data"
              (setKey (setKey d "data" (.arr sorted)) "merged_sources" (.obj ms)) =
              some (JValue.arr sorted) := by
            rw [jLookup_setKey_ne _ _ _ _ (by decide), jLookup_setKey_self]
          refine ⟨sorted, hdata, ?_⟩
          have hobj : ∀ v ∈ combinedRecords ((f, d) :: p :: rest), isObjB v = true :=
            fun v hv => (hnum v hv).1
          rw [sortRecords, extractKeys_of_obj _ hobj] at hs
          dsimp only at hs
          have htc : totallyComparable
              ((combinedRecords ((f, d) :: p :: rest)).map effTs) = true := by
            rw [totallyComparable, List.all_eq_true]
            intro x hx
            rw [List.all_eq_true]
            intro y hy
            obtain ⟨u, hu, rfl⟩ := List.mem_map.mp hx
            obtain ⟨v, hv, rfl⟩ := List.mem_map.mp hy
            obtain ⟨-, nu, hnu⟩ := hnum u hu
            obtain ⟨-, nv, hnv⟩ := hnum v hv
            rw [hnu, hnv]
            rfl
          rw [if_pos htc] at hs
          have hzip : (combinedRecords ((f, d) :: p :: rest)).zip
              ((combinedRecords ((f, d) :: p :: rest)).map effTs) =
              List.map (fun v => (v, effTs v)) (combinedRecords ((f, d) :: p :: rest)) := by
            nth_rewrite 1 [show combinedRecords ((f, d) :: p :: rest) =
              List.map id (combinedRecords ((f, d) :: p :: rest)) from
                (List.map_id _).symm]
            rw [List.zip_map']
            rfl
          rw [hzip] at hs
          cases hs
          have hshape : ∀ q ∈ List.map (fun v => (v, effTs v))
              (combinedRecords ((f, d) :: p :: rest)),
              ∃ vn : Int, q.2 = JValue.num vn ∧ effInt q.1 = vn := by
            intro q hq
            obtain ⟨v, hvmem, rfl⟩ := List.mem_map.mp hq
            obtain ⟨-, n, hn⟩ := hnum v hvmem
            exact ⟨n, hn, effInt_of_effTs_num v n hn⟩
          constructor
          · rw [List.pairwise_map]
            have hpw := pairwise_insertionSortBy pairLe
              (List.map (fun v => (v, effTs v)) (combinedRecords ((f, d) :: p :: rest)))
              ?_ ?_
            · refine hpw.imp_of_mem ?_
              intro a b ha hb hab
              obtain ⟨na, ha2, ha3⟩ := hshape a ((mem_insertionSortBy _ _ _).mp ha)
              obtain ⟨nb, hb2, hb3⟩ := hshape b ((mem_insertionSortBy _ _ _).mp hb)
              rw [pairLe_num a b na nb ha2 hb2] at hab
              rw [ha3, hb3]
              exact of_decide_eq_true hab
            · intro a ha b hb hab
              obtain ⟨na, ha2, ha3⟩ := hshape a ha
              obtain ⟨nb, hb2, hb3⟩ := hshape b hb
              rw [pairLe_num a b na nb ha2 hb2] at hab
              rw [pairLe_num b a nb na hb2 ha2]
              have := of_decide_eq_false hab
              exact decide_eq_true (by omega)
            · intro a ha b hb c hc h1 h2
              obtain ⟨na, ha2, ha3⟩ := hshape a ha
              obtain ⟨nb, hb2, hb3⟩ := hshape b hb
              obtain ⟨nc, hc2, hc3⟩ := hshape c hc
              rw [pairLe_num a b na nb ha2 hb2] at h1
              rw [pairLe_num b c nb nc hb2 hc2] at h2
              rw [pairLe_num a c na nc ha2 hc2]
              have g1 := of_decide_eq_true h1
              have g2 := of_decide_eq_true h2
              exact decide_eq_true (by omega)
          · intro t
            rw [List.filter_map]
            rw [filter_insertionSortBy pairLe _ _ ?_]
            · rw [← List.filter_map]
              have hfst : List.map Prod.fst (List.map (fun v => (v, effTs v))
                  (combinedRecords ((f, d) :: p :: rest))) =
                  combinedRecords ((f, d) :: p :: rest) := by
                rw [List.map_map]
                exact List.map_id _
              rw [hfst]
            · intro a ha b hb hab hpa
              obtain ⟨na, ha2, ha3⟩ := hshape a ha
              obtain ⟨nb, hb2, hb3⟩ := hshape b hb
              rw [pairLe_num a b na nb ha2 hb2] at hab
              have g1 := of_decide_eq_false hab
              have hpa2 : (effInt a.1 == t) = true := hpa
              have : na = t := by
                rw [ha3] at hpa2
                exact beq_iff_eq.mp hpa2
              show (effInt b.1 == t) = false
              rw [hb3]
              have g2 : nb ≠ t := by omega
              exact beq_eq_false_iff_ne.mpr g2

/-- C4 witness: records with timestamps 5, 2, 2 — the two timestamp-2
records keep their concatenation order (base's before the additional
document's) ahead of the timestamp-5 record. -/
theorem c4_numeric_timestamps_sorted_stable_witness :
    ∃ l, jLookup "data"
        [("data", JValue.arr
          [JValue.obj [("timestamp", JValue.num 2), ("v", JValue.str "p")],
           JValue.obj [("timestamp", JValue.num 2), ("v", JValue.str "q")],
           JValue.obj [("timestamp", JValue.num 5)]]),
         ("merged_sources", JValue.obj
           [("merged_at", JValue.str "t"), ("base_file", JValue.str "a"),
            ("additional_files", JValue.arr [JValue.str "b"]),
            ("total_files_merged", JValue.num 2)])]
      = some (JValue.arr l) ∧
      l.Pairwise (fun a b => effInt a ≤ effInt b) ∧
      ∀ t : Int, l.filter (fun v => effInt v == t) =
        (combinedRecords
          [("a", [("data", JValue.arr
            [JValue.obj [("timestamp", JValue.num 5)],
             JValue.obj [("timestamp", JValue.num 2), ("v", JValue.str "p")]])]),
           ("b", [("data", JValue.arr
            [JValue.obj [("timestamp", JValue.num 2), ("v", JValue.str "q")]])])]).filter
          fun v => effInt v == t := by
  refine c4_numeric_timestamps_sorted_stable "t"
    [("a", [("data", JValue.arr
      [JValue.obj [("timestamp", JValue.num 5)],
       JValue.obj [("timestamp", JValue.num 2), ("v", JValue.str "p")]])]),
     ("b", [("data", JValue.arr
      [JValue.obj [("timestamp", JValue.num 2), ("v", JValue.str "q")]])])]
    _ rfl ?_
  intro v hv
  rw [show combinedRecords
      [("a", [("data", JValue.arr
        [JValue.obj [("timestamp", JValue.num 5)],
         JValue.obj [("timestamp", JValue.num 2), ("v", JValue.str "p")]])]),
       ("b", [("data", JValue.arr
        [JValue.obj [("timestamp", JValue.num 2), ("v", JValue.str "q")]])])] =
    [JValue.obj [("timestamp", JValue.num 5)],
     JValue.obj [("timestamp", JValue.num 2), ("v", JValue.str "p")],
     JValue.obj [("timestamp", JValue.num 2), ("v", JValue.str "q")]] from rfl] at hv
  rcases List.mem_cons.mp hv with rfl | hv2
  · exact ⟨rfl, 5, rfl⟩
  · rcases List.mem_cons.mp hv2 with rfl | hv3
    · exact ⟨rfl, 2, rfl⟩
    · rcases List.mem_cons.mp hv3 with rfl | hv4
      · exact ⟨rfl, 2, rfl⟩
      · cases hv4

/-- C7 (amended): for every valid merge whose base document carries no
`merged_sources` field, the result's lineage has `base_file` the base's
own identifier, `additional_files` exactly the run's additional
identifiers in input order, `total_files_merged` the number of additional
files plus one — and no `previous_merges` key at all (the code only adds
that key when the base was itself a merge result). -/
theorem c7_fresh_base_lineage (now f : String) (d : JObj) (p : String × JObj)
    (rest : List (String × JObj)) (r : JObj)
    (hfresh : jLookup "merged_sources" d = none)
    (h : merge_log_files now ((f, d) :: p :: rest) = .ok r) :
    ∃ ms, jLookup "merged_sources" r = some (JValue.obj ms) ∧
      jLookup "base_file" ms = some (.str f) ∧
      jLookup "additional_files" ms =
        some (.arr (((p :: rest).map Prod.fst).map JValue.str)) ∧
      jLookup "total_files_merged" ms =
        some (.num (((p :: rest).length : Int) + 1)) ∧
      jLookup "previous_merges" ms = none := by
  rw [merge_log_files_eq] at h
  split at h
  · cases h
  · split at h
    · cases h
    next sorted hs =>
      split at h
      · cases h
      next ms hms =>
        cases h
        have hmerged : is_merged_file d = false := by
          rw [is_merged_file, hfresh]
          rfl
        rw [create_merged_metadata] at hms
        rw [if_neg (by rw [hmerged]; exact Bool.false_ne_true)] at hms
        cases hms
        refine ⟨_, jLookup_setKey_self _ _ _, rfl, rfl, ?_, rfl⟩
        rw [show jLookup "total_files_merged"
            [("merged_at", JValue.str now), ("base_file", JValue.str f),
             ("additional_files", JValue.arr (((p :: rest).map Prod.fst).map JValue.str)),
             ("total_files_merged",
               JValue.num ((((p :: rest).map Prod.fst).length : Int) + 1))] =
          some (JValue.num ((((p :: rest).map Prod.fst).length : Int) + 1)) from rfl]
        rw [List.length_map]

/-- C7 witness: a concrete merge of two fresh documents. -/
theorem c7_fresh_base_lineage_witness :
    ∃ ms, jLookup "merged_sources"
        [("data", JValue.arr []),
         ("merged_sources", JValue.obj
           [("merged_at", JValue.str "t"), ("base_file", JValue.str "a"),
            ("additional_files", JValue.arr [JValue.str "b"]),
            ("total_files_merged", JValue.num 2)])]
      = some (JValue.obj ms) ∧
      jLookup "base_file" ms = some (.str "a") ∧
      jLookup "additional_files" ms =
        some (.arr ((([(("b" : String), ([("data", JValue.arr [])] : JObj))].map Prod.fst)).map JValue.str)) ∧
      jLookup "total_files_merged" ms =
        some (.num ((([(("b" : String), ([("data", JValue.arr [])] : JObj))].length : Int)) + 1)) ∧
      jLookup "previous_merges" ms = none :=
  c7_fresh_base_lineage "t" "a" [("data", JValue.arr [])]
    ("b", [("data", JValue.arr [])]) [] _ rfl rfl

/-! C1: lineage of a merge chain. -/

theorem prevMergeEntry_eq (sources : JObj) (ma0 bf0 : JValue) (ia : List JValue)
    (hma : jLookup "merged_at" sources = some ma0)
    (hbf : jLookup "base_file" sources = some bf0)
    (haf : jLookup "additional_files" sources = some (.arr ia)) :
    prevMergeEntry sources =
      .obj [("merged_at", ma0), ("files_in_merge", .arr (bf0 :: ia))] := by
  rw [prevMergeEntry, hma, hbf, haf]
  rfl

theorem create_merged_metadata_inherits (f : String) (afs : List String) (d : JObj)
    (now : String) (bf0 : JValue) (ia : List JValue) (sources : JObj)
    (hms : jLookup "merged_sources" d = some (.obj sources))
    (hbf : jLookup "base_file" sources = some bf0)
    (haf : jLookup "additional_files" sources = some (.arr ia))
    (hpm : jLookup "previous_merges" sources = none) :
    create_merged_metadata f afs d now = .ok
      [("merged_at", .str now), ("base_file", bf0),
       ("additional_files", .arr (ia ++ afs.map JValue.str)),
       ("total_files_merged", .num (((ia ++ afs.map JValue.str).length : Int) + 1)),
       ("previous_merges", .arr [prevMergeEntry sources])] := by
  have hmerged : is_merged_file d = true := by
    rw [is_merged_file, hms]
    rfl
  rw [create_merged_metadata, if_pos hmerged, hms]
  dsimp only [Option.getD_some]
  rw [show inheritedAdditional sources = some ia from by
    rw [inheritedAdditional, haf]]
  dsimp only
  rw [hbf, hpm]
  dsimp only [Option.getD_some, Option.getD_none]
  rfl

/-- C1 (amended): merging A — itself the result of merging X and Y, where
X was not already a merge result — with a further document Z yields
lineage rooted at X: `base_file` is X's identifier, `additional_files` is
`[Y's identifier, Z's identifier]`, `total_files_merged` is 3, and
`previous_merges` holds exactly one entry, whose `files_in_merge` is
`[X's identifier, Y's identifier]`.  (The restriction to a fresh X is
forced: when X itself carries lineage, `base_file` and `previous_merges`
are inherited from it instead.) -/
theorem c1_chain_lineage (n1 n2 x y a z : String) (X Y Z A R : JObj)
    (hfresh : jLookup "merged_sources" X = none)
    (h1 : merge_log_files n1 [(x, X), (y, Y)] = .ok A)
    (h2 : merge_log_files n2 [(a, A), (z, Z)] = .ok R) :
    ∃ ms, jLookup "merged_sources" R = some (JValue.obj ms) ∧
      jLookup "base_file" ms = some (.str x) ∧
      jLookup "additional_files" ms = some (.arr [.str y, .str z]) ∧
      jLookup "total_files_merged" ms = some (.num 3) ∧
      ∃ e, jLookup "previous_merges" ms = some (.arr [JValue.obj e]) ∧
        jLookup "files_in_merge" e = some (.arr [.str x, .str y]) := by
  rw [merge_log_files_eq] at h1
  split at h1
  · cases h1
  · split at h1
    · cases h1
    next sorted1 hs1 =>
      split at h1
      · cases h1
      next ms1 hms1 =>
        have hmerged : is_merged_file X = false := by
          rw [is_merged_file, hfresh]
          rfl
        rw [create_merged_metadata] at hms1
        rw [if_neg (by rw [hmerged]; exact Bool.false_ne_true)] at hms1
        cases hms1
        cases h1
        rw [merge_log_files_eq] at h2
        split at h2
        · cases h2
        · split at h2
          · cases h2
          next sorted2 hs2 =>
            split at h2
            · cases h2
            next ms2 hms2 =>
              rw [create_merged_metadata_inherits a ([((z : String), Z)].map Prod.fst)
                _ n2 (JValue.str x) ([JValue.str y]) _
                (jLookup_setKey_self _ _ _) ?hbf ?haf ?hpm] at hms2
              case hbf => rfl
              case haf => rfl
              case hpm => rfl
              rw [prevMergeEntry_eq _ (JValue.str n1) (JValue.str x) [JValue.str y]
                ?hma2 ?hbf2 ?haf2] at hms2
              case hma2 => rfl
              case hbf2 => rfl
              case haf2 => rfl
              cases hms2
              cases h2
              exact ⟨_, jLookup_setKey_self _ _ _, rfl, rfl, rfl, _, rfl, rfl⟩

/-- C1 witness: a concrete two-step chain with a fresh X. -/
theorem c1_chain_lineage_witness :
    ∃ ms, jLookup "merged_sources"
        [("data", JValue.arr []),
         ("merged_sources", JValue.obj
           [("merged_at", JValue.str "t2"), ("base_file", JValue.str "x"),
            ("additional_files", JValue.arr [JValue.str "y", JValue.str "z"]),
            ("total_files_merged", JValue.num 3),
            ("previous_merges", JValue.arr
              [JValue.obj [("merged_at", JValue.str "t1"),
                ("files_in_merge", JValue.arr [JValue.str "x", JValue.str "y"])]])])]
      = some (JValue.obj ms) ∧
      jLookup "base_file" ms = some (.str "x") ∧
      jLookup "additional_files" ms = some (.arr [.str "y", .str "z"]) ∧
      jLookup "total_files_merged" ms = some (.num 3) ∧
      ∃ e, jLookup "previous_merges" ms = some (.arr [JValue.obj e]) ∧
        jLookup "files_in_merge" e = some (.arr [.str "x", .str "y"]) :=
  c1_chain_lineage "t1" "t2" "x" "y" "a" "z"
    [("data", JValue.arr [])] [("data", JValue.arr [])] [("data", JValue.arr [])]
    [("data", JValue.arr []),
     ("merged_sources", JValue.obj
       [("merged_at", JValue.str "t1"), ("base_file", JValue.str "x"),
        ("additional_files", JValue.arr [JValue.str "y"]),
        ("total_files_merged", JValue.num 2)])]
    [("data", JValue.arr []),
     ("merged_sources", JValue.obj
       [("merged_at", JValue.str "t2"), ("base_file", JValue.str "x"),
        ("additional_files", JValue.arr [JValue.str "y", JValue.str "z"]),
        ("total_files_merged", JValue.num 3),
        ("previous_merges", JValue.arr
          [JValue.obj [("merged_at", JValue.str "t1"),
            ("files_in_merge", JValue.arr [JValue.str "x", JValue.str "y"])]])])]
    rfl rfl rfl

/-! C2: characterization of the validation errors. -/

theorem validate_cons (g : String) (dg : JObj) (rest : List (String × JObj)) :
    validate ((g, dg) :: rest) =
      match jLookup "data" dg with
      | none => .error (.missingDataField g)
      | some v => if isArrB v then validate rest else .error (.invalidDataType g) := by
  rw [validate]
  cases jLookup "data" dg with
  | none => rfl
  | some v => cases v <;> rfl

theorem dataIsList_eq_false_of_none (d : JObj) (h : jLookup "data" d = none) :
    dataIsList d = false := by
  rw [dataIsList, h]

theorem dataIsList_eq_false_of_nonarr (d : JObj) (v : JValue)
    (h : jLookup "data" d = some v) (hv : isArrB v = false) :
    dataIsList d = false := by
  rw [dataIsList, h]
  cases v with
  | arr l => cases hv
  | _ => rfl

theorem validate_missing_iff (docs : List (String × JObj)) (f : String) :
    validate docs = .error (.missingDataField f) ↔
      ∃ pre d post, docs = pre ++ (f, d) :: post ∧
        (∀ q ∈ pre, dataIsList q.2 = true) ∧ jLookup "data" d = none := by
  induction docs with
  | nil =>
    constructor
    · intro h
      cases h
    · rintro ⟨pre, d, post, hcat, -, -⟩
      cases pre <;> cases hcat
  | cons gd rest ih =>
    obtain ⟨g, dg⟩ := gd
    rw [validate_cons]
    cases hg : jLookup "data" dg with
    | none =>
      dsimp only
      constructor
      · intro h
        injection h with h1
        injection h1 with h2
        subst h2
        exact ⟨[], dg, rest, rfl, by simp, hg⟩
      · rintro ⟨pre, d, post, hcat, hpre, hnone⟩
        cases pre with
        | nil =>
          injection hcat with h1 h2
          injection h1 with h3 h4
          rw [h3]
        | cons q pre2 =>
          injection hcat with h1 h2
          have := hpre q (by simp)
          rw [← h1, dataIsList_eq_false_of_none dg hg] at this
          cases this
    | some v =>
      dsimp only
      by_cases hv : isArrB v
      · rw [if_pos hv]
        rw [ih]
        constructor
        · rintro ⟨pre, d, post, hcat, hpre, hnone⟩
          refine ⟨(g, dg) :: pre, d, post, by rw [hcat]; rfl, ?_, hnone⟩
          intro q hq
          rcases List.mem_cons.mp hq with rfl | hq2
          · show dataIsList dg = true
            rw [dataIsList, hg]
            cases v with
            | arr l => rfl
            | _ => cases hv
          · exact hpre q hq2
        · rintro ⟨pre, d, post, hcat, hpre, hnone⟩
          cases pre with
          | nil =>
            injection hcat with h1 h2
            injection h1 with h3 h4
            rw [h4] at hg
            rw [hg] at hnone
            cases hnone
          | cons q pre2 =>
            injection hcat with h1 h2
            exact ⟨pre2, d, post, h2, fun q2 hq2 => hpre q2 (by simp [hq2]), hnone⟩
      · rw [if_neg hv]
        constructor
        · intro h
          cases h
        · rintro ⟨pre, d, post, hcat, hpre, hnone⟩
          cases pre with
          | nil =>
            injection hcat with h1 h2
            injection h1 with h3 h4
            rw [h4] at hg
            rw [hg] at hnone
            cases hnone
          | cons q pre2 =>
            injection hcat with h1 h2
            have := hpre q (by simp)
            rw [← h1, dataIsList_eq_false_of_nonarr dg v hg (by simpa using hv)] at this
            cases this

theorem validate_invalid_iff (docs : List (String × JObj)) (f : String) :
    validate docs = .error (.invalidDataType f) ↔
      ∃ pre d post, docs = pre ++ (f, d) :: post ∧
        (∀ q ∈ pre, dataIsList q.2 = true) ∧
        ∃ v, jLookup "data" d = some v ∧ isArrB v = false := by
  induction docs with
  | nil =>
    constructor
    · intro h
      cases h
    · rintro ⟨pre, d, post, hcat, -, -⟩
      cases pre <;> cases hcat
  | cons gd rest ih =>
    obtain ⟨g, dg⟩ := gd
    rw [validate_cons]
    cases hg : jLookup "data" dg with
    | none =>
      dsimp only
      constructor
      · intro h
        injection h with h1
        cases h1
      · rintro ⟨pre, d, post, hcat, hpre, v, hv, hvarr⟩
        cases pre with
        | nil =>
          injection hcat with h1 h2
          injection h1 with h3 h4
          rw [h4] at hg
          rw [hg] at hv
          cases hv
        | cons q pre2 =>
          injection hcat with h1 h2
          have := hpre q (by simp)
          rw [← h1, dataIsList_eq_false_of_none dg hg] at this
          cases this
    | some v =>
      dsimp only
      by_cases hv : isArrB v
      · rw [if_pos hv]
        rw [ih]
        constructor
        · rintro ⟨pre, d, post, hcat, hpre, w, hw, hwarr⟩
          refine ⟨(g, dg) :: pre, d, post, by rw [hcat]; rfl, ?_, w, hw, hwarr⟩
          intro q hq
          rcases List.mem_cons.mp hq with rfl | hq2
          · show dataIsList dg = true
            rw [dataIsList, hg]
            cases v with
            | arr l => rfl
            | _ => cases hv
          · exact hpre q hq2
        · rintro ⟨pre, d, post, hcat, hpre, w, hw, hwarr⟩
          cases pre with
          | nil =>
            injection hcat with h1 h2
            injection h1 with h3 h4
            rw [h4] at hg
            rw [hg] at hw
            injection hw with h5
            rw [h5] at hv
            rw [hv] at hwarr
            cases hwarr
          | cons q pre2 =>
            injection hcat with h1 h2
            exact ⟨pre2, d, post, h2, fun q2 hq2 => hpre q2 (by simp [hq2]), w, hw, hwarr⟩
      · rw [if_neg hv]
        constructor
        · intro h
          injection h with h1
          injection h1 with h2
          subst h2
          exact ⟨[], dg, rest, rfl, by simp, v, hg, by simpa using hv⟩
        · rintro ⟨pre, d, post, hcat, hpre, w, hw, hwarr⟩
          cases pre with
          | nil =>
            injection hcat with h1 h2
            injection h1 with h3 h4
            rw [h3]
          | cons q pre2 =>
            injection hcat with h1 h2
            have := hpre q (by simp)
            rw [← h1, dataIsList_eq_false_of_nonarr dg v hg (by simpa using hv)] at this
            cases this

theorem validate_error_shape (docs : List (String × JObj)) (e : MergeError)
    (h : validate docs = .error e) :
    (∃ f, e = MergeError.missingDataField f) ∨ (∃ f, e = MergeError.invalidDataType f) := by
  induction docs with
  | nil => cases h
  | cons gd rest ih =>
    obtain ⟨g, dg⟩ := gd
    rw [validate_cons] at h
    cases hg : jLookup "data" dg with
    | none =>
      rw [hg] at h
      injection h with h1
      exact Or.inl ⟨g, h1.symm⟩
    | some v =>
      rw [hg] at h
      dsimp only at h
      by_cases hv : isArrB v
      · rw [if_pos hv] at h
        exact ih h
      · rw [if_neg hv] at h
        injection h with h1
        exact Or.inr ⟨g, h1.symm⟩

theorem extractKeys_error_shape (l : List JValue) (e : MergeError)
    (h : extractKeys l = .error e) : ∃ s, e = MergeError.attributeError s := by
  induction l with
  | nil => cases h
  | cons a t ih =>
    rw [extractKeys] at h
    cases ha : get_timestamp a with
    | error e2 =>
      rw [ha] at h
      injection h with h1
      subst h1
      cases a with
      | obj fields => cases ha
      | _ => injection ha with h2; exact ⟨_, h2.symm⟩
    | ok k =>
      rw [ha] at h
      dsimp only at h
      cases ht : extractKeys t with
      | error e2 =>
        rw [ht] at h
        injection h with h1
        subst h1
        exact ih ht
      | ok ks =>
        rw [ht] at h
        cases h

theorem sortRecords_error_shape (records : List JValue) (e : MergeError)
    (h : sortRecords records = .error e) : ∃ s, e = MergeError.attributeError s := by
  rw [sortRecords] at h
  split at h
  next e2 hk =>
    injection h with h1
    subst h1
    exact extractKeys_error_shape _ _ hk
  next keys hk =>
    split at h <;> cases h

theorem create_error_shape (f : String) (afs : List String) (d : JObj)
    (now : String) (e : MergeError)
    (h : create_merged_metadata f afs d now = .error e) :
    (∃ s, e = MergeError.attributeError s) ∨ (∃ s, e = MergeError.typeError s) := by
  rw [create_merged_metadata] at h
  split at h
  · split at h
    · split at h
      · injection h with h1
        exact Or.inr ⟨_, h1.symm⟩
      · split at h
        · cases h
        · injection h with h1
          exact Or.inl ⟨_, h1.symm⟩
    · injection h with h1
      exact Or.inl ⟨_, h1.symm⟩
  · cases h

theorem merge_error_cases (now f : String) (d : JObj) (p : String × JObj)
    (rest : List (String × JObj)) (e : MergeError)
    (h : merge_log_files now ((f, d) :: p :: rest) = .error e) :
    validate ((f, d) :: p :: rest) = .error e ∨
      (∃ s, e = MergeError.attributeError s) ∨ (∃ s, e = MergeError.typeError s) := by
  rw [merge_log_files_eq] at h
  split at h
  next e2 hval =>
    injection h with h1
    subst h1
    exact Or.inl hval
  next hval =>
    split at h
    next e2 hsort =>
      injection h with h1
      subst h1
      exact Or.inr (Or.inl (sortRecords_error_shape _ _ hsort))
    next sorted hsort =>
      split at h
      next e2 hcr =>
        injection h with h1
        subst h1
        exact Or.inr (create_error_shape _ _ _ _ _ hcr)
      next ms hcr => cases h

theorem merge_of_validate_error (now f : String) (d : JObj) (p : String × JObj)
    (rest : List (String × JObj)) (e : MergeError)
    (h : validate ((f, d) :: p :: rest) = .error e) :
    merge_log_files now ((f, d) :: p :: rest) = .error e := by
  rw [merge_log_files_eq, h]

/-- C2 (amended): `InsufficientInputs` is raised exactly when fewer than
2 documents are supplied.  With 2 or more documents, validation scans the
documents in input order and the first one with a bad `data` field
determines the error: `MissingDataField` (with that document's
identifier) when its `data` key is absent, `InvalidDataType` (with that
identifier) when its `data` is present but not a list — a later document
missing `data` does not override an earlier invalid-type failure.  Both
per-document error messages embed the failing document's identifier. -/
theorem c2_error_conditions (now : String) (docs : List (String × JObj)) :
    (merge_log_files now docs = .error .insufficientInputs ↔ docs.length < 2) ∧
    (∀ f, merge_log_files now docs = .error (.missingDataField f) ↔
      (2 ≤ docs.length ∧ ∃ pre d post, docs = pre ++ (f, d) :: post ∧
        (∀ q ∈ pre, dataIsList q.2 = true) ∧ jLookup "data" d = none)) ∧
    (∀ f, merge_log_files now docs = .error (.invalidDataType f) ↔
      (2 ≤ docs.length ∧ ∃ pre d post, docs = pre ++ (f, d) :: post ∧
        (∀ q ∈ pre, dataIsList q.2 = true) ∧
        ∃ v, jLookup "data" d = some v ∧ isArrB v = false)) ∧
    (∀ f, errorMessage (.missingDataField f) =
      "File " ++ f ++ " is missing required \x27data\x27 field") ∧
    (∀ f, errorMessage (.invalidDataType f) =
      "File " ++ f ++ " \x27data\x27 field must be a list") := by
  refine ⟨?_, ?_, ?_, fun f => rfl, fun f => rfl⟩
  · match docs with
    | [] => simp [merge_log_files]
    | [q] => simp [merge_log_files]
    | (f, d) :: p :: rest =>
      constructor
      · intro h
        rcases merge_error_cases now f d p rest _ h with hval | ⟨s, hs⟩ | ⟨s, hs⟩
        · rcases validate_error_shape _ _ hval with ⟨g, hg⟩ | ⟨g, hg⟩ <;> cases hg
        · cases hs
        · cases hs
      · intro h
        rw [List.length_cons, List.length_cons] at h
        omega
  · intro f
    match docs with
    | [] =>
      simp only [merge_log_files]
      constructor
      · intro h
        cases h
      · rintro ⟨h2, -⟩
        simp at h2
    | [q] =>
      simp only [merge_log_files]
      constructor
      · intro h
        cases h
      · rintro ⟨h2, -⟩
        simp at h2
    | (f0, d) :: p :: rest =>
      constructor
      · intro h
        rcases merge_error_cases now f0 d p rest _ h with hval | ⟨s, hs⟩ | ⟨s, hs⟩
        · exact ⟨by simp, (validate_missing_iff _ f).mp hval⟩
        · cases hs
        · cases hs
      · rintro ⟨-, hdec⟩
        exact merge_of_validate_error now f0 d p rest _
          ((validate_missing_iff _ f).mpr hdec)
  · intro f
    match docs with
    | [] =>
      simp only [merge_log_files]
      constructor
      · intro h
        cases h
      · rintro ⟨h2, -⟩
        simp at h2
    | [q] =>
      simp only [merge_log_files]
      constructor
      · intro h
        cases h
      · rintro ⟨h2, -⟩
        simp at h2
    | (f0, d) :: p :: rest =>
      constructor
      · intro h
        rcases merge_error_cases now f0 d p rest _ h with hval | ⟨s, hs⟩ | ⟨s, hs⟩
        · exact ⟨by simp, (validate_invalid_iff _ f).mp hval⟩
        · cases hs
        · cases hs
      · rintro ⟨-, hdec⟩
        exact merge_of_validate_error now f0 d p rest _
          ((validate_invalid_iff _ f).mpr hdec)

/-! C9: determinism of the merge up to the `merged_at` timestamp. -/

theorem setKey_setKey_same (o : JObj) (k : String) (v w : JValue) :
    setKey (setKey o k v) k w = setKey o k w := by
  induction o with
  | nil => simp [setKey]
  | cons q rest ih =>
    obtain ⟨k2, u⟩ := q
    by_cases h : k2 == k
    · simp [setKey, h]
    · simp [setKey, h, ih]

theorem create_map_removeKey (f : String) (afs : List String) (d : JObj)
    (n1 n2 : String) :
    (create_merged_metadata f afs d n1).map (fun ms => removeKey ms "merged_at") =
      (create_merged_metadata f afs d n2).map (fun ms => removeKey ms "merged_at") := by
  rw [create_merged_metadata, create_merged_metadata]
  split
  · split
    · split
      · rfl
      · split
        · rfl
        · rfl
    · rfl
  · rfl

/-- C9: two independent runs of the merge on the same input documents
produce the same outcome — identical `data` and identical lineage —
after erasing the current run's `merged_at` timestamp, the only field
that depends on the clock. -/
theorem c9_runs_agree_modulo_merged_at (n1 n2 : String)
    (docs : List (String × JObj)) :
    (merge_log_files n1 docs).map scrubMergedAt =
      (merge_log_files n2 docs).map scrubMergedAt := by
  match docs with
  | [] => rfl
  | [d] => rfl
  | (f, d) :: p :: rest =>
    rw [merge_log_files_eq, merge_log_files_eq]
    split
    · rfl
    · split
      · rfl
      next sorted hsort =>
        have hcr := create_map_removeKey f ((p :: rest).map Prod.fst) d n1 n2
        cases hc1 : create_merged_metadata f ((p :: rest).map Prod.fst) d n1 with
        | error e1 =>
          cases hc2 : create_merged_metadata f ((p :: rest).map Prod.fst) d n2 with
          | error e2 =>
            rw [hc1, hc2] at hcr
            injection hcr with h1
            rw [h1]
          | ok ms2 =>
            rw [hc1, hc2] at hcr
            cases hcr
        | ok ms1 =>
          cases hc2 : create_merged_metadata f ((p :: rest).map Prod.fst) d n2 with
          | error e2 =>
            rw [hc1, hc2] at hcr
            cases hcr
          | ok ms2 =>
            rw [hc1, hc2] at hcr
            injection hcr with h1
            dsimp only
            rw [show ∀ r : JObj, (Except.ok r : Except MergeError JObj).map scrubMergedAt
              = .ok (scrubMergedAt r) from fun r => rfl]
            rw [show ∀ r : JObj, (Except.ok r : Except MergeError JObj).map scrubMergedAt
              = .ok (scrubMergedAt r) from fun r => rfl]
            rw [scrubMergedAt, scrubMergedAt,
              jLookup_setKey_self, jLookup_setKey_self]
            dsimp only
            rw [setKey_setKey_same, setKey_setKey_same]
            have h2 : removeKey ms1 "merged_at" = removeKey ms2 "merged_at" := h1
            rw [h2]
